import Mathlib

/-!
Verification development for the news_neuro_bot repository.

The definitions below are shallow embeddings of the Python source:
`src/db_handler.py` (deduplication store), `src/source_aggregator.py`
(source aggregation), `src/gemini_processor.py` (rewrite pipeline),
`src/telegram_poster.py` (publishing), and `src/scheduler.py`
(workflow orchestration and scheduling).  Machine integers are `Nat`
with explicit `% 2^32` where the SHA-256 computation overflows;
fallible collaborators are modelled as `Option`-returning parameters.
-/

namespace NewsBot

/-! ## SHA-256 (model of Python `hashlib.sha256(...).hexdigest()`)

`db_handler.calculate_content_hash` calls `hashlib.sha256` on the UTF-8
encoding of the content string and returns the hex digest.  We embed
SHA-256 (FIPS 180-4) over `Nat` with explicit reduction mod `2^32`. -/

def M32 : Nat := 4294967296

def rotr (n x : Nat) : Nat := ((x >>> n) ||| (x <<< (32 - n))) % M32

def bsig0 (x : Nat) : Nat := rotr 2 x ^^^ rotr 13 x ^^^ rotr 22 x

def bsig1 (x : Nat) : Nat := rotr 6 x ^^^ rotr 11 x ^^^ rotr 25 x

def ssig0 (x : Nat) : Nat := rotr 7 x ^^^ rotr 18 x ^^^ (x >>> 3)

def ssig1 (x : Nat) : Nat := rotr 17 x ^^^ rotr 19 x ^^^ (x >>> 10)

def chFn (x y z : Nat) : Nat := (x &&& y) ^^^ ((x ^^^ (M32 - 1)) &&& z)

def majFn (x y z : Nat) : Nat := (x &&& y) ^^^ (x &&& z) ^^^ (y &&& z)

def shaK : List Nat :=
  [1116352408, 1899447441, 3049323471, 3921009573, 961987163,
   1508970993, 2453635748, 2870763221, 3624381080, 310598401,
   607225278, 1426881987, 1925078388, 2162078206, 2614888103,
   3248222580, 3835390401, 4022224774, 264347078, 604807628,
   770255983, 1249150122, 1555081692, 1996064986, 2554220882,
   2821834349, 2952996808, 3210313671, 3336571891, 3584528711,
   113926993, 338241895, 666307205, 773529912, 1294757372,
   1396182291, 1695183700, 1986661051, 2177026350, 2456956037,
   2730485921, 2820302411, 3259730800, 3345764771, 3516065817,
   3600352804, 4094571909, 275423344, 430227734, 506948616,
   659060556, 883997877, 958139571, 1322822218, 1537002063,
   1747873779, 1955562222, 2024104815, 2227730452, 2361852424,
   2428436474, 2756734187, 3204031479, 3329325298]

def shaH0 : List Nat :=
  [1779033703, 3144134277, 1013904242, 2773480762,
   1359893119, 2600822924, 528734635, 1541459225]

structure ShaState where
  a : Nat
  b : Nat
  c : Nat
  d : Nat
  e : Nat
  f : Nat
  g : Nat
  h : Nat

def shaRound (s : ShaState) (kw : Nat × Nat) : ShaState :=
  let t1 := (s.h + bsig1 s.e + chFn s.e s.f s.g + kw.1 + kw.2) % M32
  let t2 := (bsig0 s.a + majFn s.a s.b s.c) % M32
  { a := (t1 + t2) % M32, b := s.a, c := s.b, d := s.c,
    e := (s.d + t1) % M32, f := s.e, g := s.f, h := s.g }

def extendW (w : List Nat) : List Nat :=
  let n := w.length
  w ++ [(ssig1 (w.getD (n - 2) 0) + w.getD (n - 7) 0 +
         ssig0 (w.getD (n - 15) 0) + w.getD (n - 16) 0) % M32]

def schedule (w16 : List Nat) : List Nat :=
  (List.range 48).foldl (fun w _ => extendW w) w16

def compressBlock (hs : List Nat) (w16 : List Nat) : List Nat :=
  let w := schedule w16
  let s0 : ShaState :=
    { a := hs.getD 0 0, b := hs.getD 1 0, c := hs.getD 2 0, d := hs.getD 3 0,
      e := hs.getD 4 0, f := hs.getD 5 0, g := hs.getD 6 0, h := hs.getD 7 0 }
  let s := (shaK.zip w).foldl shaRound s0
  [(hs.getD 0 0 + s.a) % M32, (hs.getD 1 0 + s.b) % M32,
   (hs.getD 2 0 + s.c) % M32, (hs.getD 3 0 + s.d) % M32,
   (hs.getD 4 0 + s.e) % M32, (hs.getD 5 0 + s.f) % M32,
   (hs.getD 6 0 + s.g) % M32, (hs.getD 7 0 + s.h) % M32]

def be64 (n : Nat) : List Nat :=
  [(n >>> 56) % 256, (n >>> 48) % 256, (n >>> 40) % 256, (n >>> 32) % 256,
   (n >>> 24) % 256, (n >>> 16) % 256, (n >>> 8) % 256, n % 256]

def padBytes (msg : List Nat) : List Nat :=
  let len := msg.length
  let z := (119 - len % 64) % 64
  msg ++ [0x80] ++ List.replicate z 0 ++ be64 (len * 8)

def bytesToWords : List Nat → List Nat
  | a :: b :: c :: d :: rest =>
      (((a * 256 + b) * 256 + c) * 256 + d) :: bytesToWords rest
  | _ => []

def words16 : List Nat → List (List Nat)
  | w0 :: w1 :: w2 :: w3 :: w4 :: w5 :: w6 :: w7 ::
    w8 :: w9 :: w10 :: w11 :: w12 :: w13 :: w14 :: w15 :: rest =>
      [w0, w1, w2, w3, w4, w5, w6, w7,
       w8, w9, w10, w11, w12, w13, w14, w15] :: words16 rest
  | _ => []

def sha256Words (msg : List Nat) : List Nat :=
  (words16 (bytesToWords (padBytes msg))).foldl compressBlock shaH0

/-- UTF-8 encoding of one character (model of Python `str.encode('utf-8')`). -/
def utf8Char (c : Char) : List Nat :=
  let n := c.toNat
  if n < 0x80 then [n]
  else if n < 0x800 then
    [0xC0 ||| (n >>> 6), 0x80 ||| (n &&& 0x3F)]
  else if n < 0x10000 then
    [0xE0 ||| (n >>> 12), 0x80 ||| ((n >>> 6) &&& 0x3F), 0x80 ||| (n &&& 0x3F)]
  else
    [0xF0 ||| (n >>> 18), 0x80 ||| ((n >>> 12) &&& 0x3F),
     0x80 ||| ((n >>> 6) &&& 0x3F), 0x80 ||| (n &&& 0x3F)]

def strBytes (s : String) : List Nat := s.data.flatMap utf8Char

def hexDigit (n : Nat) : Char :=
  if n < 10 then Char.ofNat (48 + n) else Char.ofNat (87 + n)

def wordHex (w : Nat) : List Char :=
  [hexDigit ((w >>> 28) % 16), hexDigit ((w >>> 24) % 16),
   hexDigit ((w >>> 20) % 16), hexDigit ((w >>> 16) % 16),
   hexDigit ((w >>> 12) % 16), hexDigit ((w >>> 8) % 16),
   hexDigit ((w >>> 4) % 16), hexDigit (w % 16)]

def sha256hex (s : String) : String :=
  String.mk ((sha256Words (strBytes s)).flatMap wordHex)

/-! ## Deduplication store (`src/db_handler.py`)

The `published_posts` table is modelled as a list of rows plus the next
AUTOINCREMENT id.  Timestamps are seconds as `Int`; the implicit
`CURRENT_TIMESTAMP` of an insert and the `datetime('now', ...)` of the
cleanup query are passed as an explicit `now` argument. -/

structure PostRow where
  id : Nat
  content_hash : String
  source_url : Option String
  source_type : String
  title : Option String
  published_at : Int
  telegram_message_id : Option Int
  reactions_count : Int
deriving DecidableEq, Repr

structure DB where
  rows : List PostRow
  next_id : Nat
deriving DecidableEq, Repr

def DB.empty : DB := { rows := [], next_id := 1 }

/-- `DatabaseHandler.calculate_content_hash`: SHA-256 hex digest of
the UTF-8 encoding of `f"{text}{url or ''}"`. -/
def calculate_content_hash (text : String) (url : Option String) : String :=
  sha256hex (text ++ url.getD "")

/-- `DatabaseHandler.is_duplicate`: `SELECT id FROM published_posts WHERE
content_hash = ?` followed by a fetchone-is-not-None test. -/
def is_duplicate (db : DB) (content_hash : String) : Bool :=
  db.rows.any (fun r => r.content_hash == content_hash)

/-- `DatabaseHandler.add_published_post`: INSERT; on the UNIQUE constraint
violation (`sqlite3.IntegrityError`, i.e. a row with this `content_hash`
already exists) it re-selects the existing row and returns its id, with
`-1` for the unreachable fetchone-None fallback. -/
def add_published_post (db : DB) (content_hash : String) (source_url : Option String)
    (source_type : String) (title : Option String)
    (telegram_message_id : Option Int) (now : Int) : DB × Int :=
  if is_duplicate db content_hash then
    match db.rows.find? (fun r => r.content_hash == content_hash) with
    | some r => (db, (r.id : Int))
    | none => (db, -1)
  else
    let row : PostRow :=
      { id := db.next_id, content_hash := content_hash, source_url := source_url,
        source_type := source_type, title := title, published_at := now,
        telegram_message_id := telegram_message_id, reactions_count := 0 }
    ({ rows := db.rows ++ [row], next_id := db.next_id + 1 }, (db.next_id : Int))

def secondsPerDay : Int := 86400

/-- `DatabaseHandler.cleanup_old_posts`: `DELETE FROM published_posts WHERE
published_at < datetime('now', '-N days')`; the second component is
`cursor.rowcount` (logged); the third component is the value the Python
function returns — it has no `return` statement, hence `none` (Python
`None`). -/
def cleanup_old_posts (db : DB) (days : Int) (now : Int) : DB × Nat × Option Nat :=
  let cutoff := now - days * secondsPerDay
  let kept := db.rows.filter (fun r => !(r.published_at < cutoff))
  let deleted_count := db.rows.length - kept.length
  ({ db with rows := kept }, deleted_count, none)

/-! ## Source aggregation (`src/source_aggregator.py`) -/

structure SourcePost where
  title : String
  content : String
  url : Option String
  source_type : String
  source_name : String
  published_at : Int
  media_url : Option String
deriving DecidableEq, Repr

/-- `SourcePost.__init__`: `self.published_at = published_at or
datetime.now()` — a missing (`None`) timestamp is replaced by the current
wall-clock time at construction. -/
def mkSourcePost (title content : String) (url : Option String)
    (source_type source_name : String) (published_at : Option Int)
    (media_url : Option String) (now : Int) : SourcePost :=
  { title := title, content := content, url := url, source_type := source_type,
    source_name := source_name, published_at := published_at.getD now,
    media_url := media_url }

/-- One raw RSS entry as seen by `fetch_rss_news`: `entry.get(...)` fields
are `Option`s; `published_parsed` is the already-parsed publish time, or
`none` if the date is missing or `datetime(*entry.published_parsed[:6])`
raised. -/
structure RssEntry where
  title : Option String
  summary : Option String
  description : Option String
  link : Option String
  published_parsed : Option Int
deriving DecidableEq, Repr

/-- Outcome of `feedparser.parse(feed_url)` for one configured feed:
either the fetch raised an exception, or it parsed with a bozo flag,
a feed title and a list of entries. -/
inductive FeedFetchResult where
  | fetchError
  | parsed (bozo : Bool) (feed_title : Option String) (entries : List RssEntry)
deriving DecidableEq, Repr

/-- The entry-to-post construction in the body of the `fetch_rss_news`
entry loop (`title`/`summary`/`description`/`link` defaults, then
`SourcePost(...)`). -/
def entryToPost (feed_title : String) (now : Int) (e : RssEntry) : SourcePost :=
  mkSourcePost (e.title.getD "No Title") (e.summary.getD (e.description.getD ""))
    (some (e.link.getD "")) "rss" feed_title e.published_parsed none now

/-- Items contributed by one feed: an exception is logged and skipped
(`continue`), a bozo feed is logged and skipped (`continue`), otherwise
the first `max_posts_to_fetch` entries are converted to posts. -/
def feedContribution (max_posts : Nat) (now : Int) : FeedFetchResult → List SourcePost
  | .fetchError => []
  | .parsed true _ _ => []
  | .parsed false feed_title entries =>
      (entries.take max_posts).map (entryToPost (feed_title.getD "Unknown Feed") now)

/-- `SourceAggregator.fetch_rss_news`: the per-feed loop appending each
feed's contribution to the accumulated `posts` list. -/
def fetch_rss_news (feeds : List FeedFetchResult) (max_posts : Nat) (now : Int) :
    List SourcePost :=
  feeds.foldl (fun posts f => posts ++ feedContribution max_posts now f) []

/-- `SourceAggregator.fetch_all_sources`: `rss_posts + telegram_posts`
then `all_posts.sort(key=lambda x: x.published_at, reverse=True)` — a
stable sort, descending by publish timestamp. -/
def fetch_all_sources (rss_posts telegram_posts : List SourcePost) : List SourcePost :=
  (rss_posts ++ telegram_posts).mergeSort
    (fun a b => decide (b.published_at ≤ a.published_at))

/-! ## Rewrite pipeline (`src/gemini_processor.py`)

The external Gemini collaborator is a parameter `gemini : String →
Option String`: `none` models a raised exception, `some s` models a
response whose `.text` is `s` (the empty string for an empty/absent
response). -/

/-- `GeminiProcessor.rewrite_text`: a truthy (non-empty) response text is
stripped and returned; an empty response or an exception falls back to
the original input text. -/
def rewrite_text (gemini : String → Option String) (text : String) : String :=
  match gemini text with
  | some resp => if resp ≠ "" then resp.trim else text
  | none => text

/-- The `full_text` built in `GeminiProcessor.process_post`:
`f"{title}\n\n{original_text}" if title else original_text`. -/
def full_text_of (title original_text : String) : String :=
  if title ≠ "" then title ++ "\n\n" ++ original_text else original_text

/-- The `rewritten_text` field of the dict returned by
`GeminiProcessor.process_post`. -/
def process_post_rewritten (gemini : String → Option String)
    (original_text title : String) : String :=
  rewrite_text gemini (full_text_of title original_text)

/-! ## Workflow (`src/scheduler.py`, `BotScheduler.run_workflow`)

External collaborators are parameters: `gemini` (rewrite service),
`image_path` (result of image generation inside `process_post`), and
`publish` (`TelegramPoster.publish_post`, which returns the message id or
`None` on failure). -/

inductive TickOutcome where
  | idle
  | allDuplicates
  | published (text : String) (message_id : Int)
  | publishFailed (text : String)
deriving DecidableEq, Repr

/-- The text the workflow handed to the publish step, if it got there. -/
def TickOutcome.textSent : TickOutcome → Option String
  | .published t _ => some t
  | .publishFailed t => some t
  | _ => none

/-- Step 2 of `run_workflow`: pair each candidate with its content hash
and keep only those whose hash is not already recorded. -/
def uniquePosts (db : DB) (posts : List SourcePost) : List (SourcePost × String) :=
  posts.filterMap (fun post =>
    let content_hash := calculate_content_hash post.content post.url
    if is_duplicate db content_hash then none else some (post, content_hash))

/-- `BotScheduler.run_workflow`: fetch (the candidate list is the input),
dedupe, select the first unique post, rewrite, publish, and record the
fingerprint only when publishing returned a truthy message id. -/
def run_workflow (db : DB) (all_posts : List SourcePost)
    (gemini : String → Option String) (image_path : Option String)
    (publish : String → Option String → Option Int) (now : Int) :
    DB × TickOutcome :=
  if all_posts.isEmpty then (db, .idle)
  else
    match uniquePosts db all_posts with
    | [] => (db, .allDuplicates)
    | (selected_post, selected_hash) :: _ =>
      let rewritten_text :=
        process_post_rewritten gemini selected_post.content selected_post.title
      match publish rewritten_text image_path with
      | some message_id =>
          if message_id ≠ 0 then
            ((add_published_post db selected_hash selected_post.url
                selected_post.source_type (some selected_post.title)
                (some message_id) now).1,
             .published rewritten_text message_id)
          else (db, .publishFailed rewritten_text)
      | none => (db, .publishFailed rewritten_text)

/-! ## Scheduler cadence (`src/scheduler.py`, `BotScheduler.start`) -/

/-- The `hours_interval = 24 / self.config.posts_per_day` computation of
`BotScheduler.start`. -/
def hours_interval (posts_per_day : ℚ) : ℚ := 24 / posts_per_day

/-- One executed firing of the periodic job: its firing index, start
time and finish time (hours). -/
structure Firing where
  index : Nat
  time : ℚ
  finish : ℚ
deriving DecidableEq, Repr

/-- Modelled from the spec: the firing semantics of the APScheduler
`IntervalTrigger(hours=hours_interval)` job with `max_instances=1`
configured in `BotScheduler.start` (the library itself is not part of the
repository). Firing `k` becomes due at time `k * interval`; it executes
exactly then if no previous execution is still in flight, and is
otherwise skipped — never queued.  `durations` gives the run time of
each would-be execution. -/
def runFirings (interval : ℚ) : List ℚ → Nat → ℚ → List Firing
  | [], _, _ => []
  | d :: ds, k, busyUntil =>
      let t := (k : ℚ) * interval
      if busyUntil ≤ t then
        { index := k, time := t, finish := t + d } :: runFirings interval ds (k + 1) (t + d)
      else
        runFirings interval ds (k + 1) busyUntil

/-- The executions that actually happen for firings `1, 2, ...` of the
interval job, starting idle at time `0`. -/
def scheduleRun (interval : ℚ) (durations : List ℚ) : List Firing :=
  runFirings interval durations 1 0

/-! ## Workflow helper lemmas -/

/-- The empty candidate list produces an empty unique list; contrapositive
gives non-emptiness of the fetched list. -/
theorem uniquePosts_nil (db : DB) : uniquePosts db [] = [] := rfl

/-- Every entry of the deduplicated list is paired with its own content
hash, and that hash is absent from the store. -/
theorem mem_uniquePosts (db : DB) (posts : List SourcePost)
    (x : SourcePost × String) (hx : x ∈ uniquePosts db posts) :
    is_duplicate db x.2 = false ∧ x.2 = calculate_content_hash x.1.content x.1.url := by
  induction posts with
  | nil => simp [uniquePosts] at hx
  | cons q qs ih =>
    by_cases hdq : is_duplicate db (calculate_content_hash q.content q.url)
    · apply ih
      simpa [uniquePosts, List.filterMap_cons, hdq] using hx
    · rw [uniquePosts, List.filterMap_cons] at hx
      simp only [hdq, Bool.false_eq_true, if_false] at hx
      rcases List.mem_cons.mp hx with hx1 | hx2
      · subst hx1
        exact ⟨by simpa using hdq, rfl⟩
      · exact ih hx2


/-- When the dedup step selects a first unique post, `run_workflow`
reduces to the rewrite/publish/record tail of the pipeline. -/
theorem run_workflow_selected (db : DB) (posts : List SourcePost)
    (gemini : String → Option String) (image_path : Option String)
    (publish : String → Option String → Option Int) (now : Int)
    (p : SourcePost) (h : String) (rest : List (SourcePost × String))
    (hsel : uniquePosts db posts = (p, h) :: rest) :
    run_workflow db posts gemini image_path publish now =
      match publish (process_post_rewritten gemini p.content p.title) image_path with
      | some message_id =>
          if message_id ≠ 0 then
            ((add_published_post db h p.url p.source_type (some p.title)
                (some message_id) now).1,
             .published (process_post_rewritten gemini p.content p.title) message_id)
          else (db, .publishFailed (process_post_rewritten gemini p.content p.title))
      | none => (db, .publishFailed (process_post_rewritten gemini p.content p.title)) := by
  have hne : posts ≠ [] := by
    intro hcontra
    rw [hcontra] at hsel
    simp [uniquePosts] at hsel
  have hempty : posts.isEmpty = false := by
    cases posts with
    | nil => exact absurd rfl hne
    | cons a as => rfl
  rw [run_workflow]
  simp only [hempty, Bool.false_eq_true, if_false, hsel]

/-- Recording one fingerprint shrinks the unique list pointwise: the
posts whose hash equals the recorded one drop out, nothing else
changes. -/
theorem uniquePosts_append_row (db : DB) (row : PostRow) (nid : Nat)
    (posts : List SourcePost) :
    uniquePosts { rows := db.rows ++ [row], next_id := nid } posts
      = (uniquePosts db posts).filter (fun q => !(row.content_hash == q.2)) := by
  induction posts with
  | nil => rfl
  | cons q qs ih =>
    have hdup' : is_duplicate { rows := db.rows ++ [row], next_id := nid }
        (calculate_content_hash q.content q.url)
        = (is_duplicate db (calculate_content_hash q.content q.url)
           || (row.content_hash == calculate_content_hash q.content q.url)) := by
      simp [is_duplicate, List.any_append]
    by_cases hdq : is_duplicate db (calculate_content_hash q.content q.url)
    · simp only [uniquePosts, List.filterMap_cons] at ih ⊢
      simp [hdup', hdq, ih]
    · by_cases hrow : (row.content_hash == calculate_content_hash q.content q.url) = true
      · simp only [uniquePosts, List.filterMap_cons] at ih ⊢
        simp [hdup', hdq, hrow, ih]
      · simp only [uniquePosts, List.filterMap_cons] at ih ⊢
        simp [hdup', hdq, hrow, ih]

/-! ## C1 — fingerprint determinism and non-injectivity -/

/-- C1 (counterexample): the fingerprint is the digest of the bare
concatenation `text ++ (locator or '')`, so the distinct input pairs
`("ab", None)` and `("a", "b")` have the same concatenation `"ab"` and
hence the same fingerprint — "distinct pairs yield distinct
fingerprints" fails. -/
theorem calculate_content_hash_not_injective :
    calculate_content_hash "ab" none = calculate_content_hash "a" (some "b") ∧
    ("ab", (none : Option String)) ≠ ("a", some "b") := by
  refine ⟨?_, by decide⟩
  unfold calculate_content_hash
  exact congrArg sha256hex (by decide)

/-- C1 (amended): `calculate_content_hash` is a pure deterministic
function of the concatenation `text ++ (locator or '')`: any two input
pairs with equal concatenations (in particular, equal pairs) yield equal
fingerprints.  Injectivity holds at most up to this concatenation (and
up to digest collisions), not on the raw pairs. -/
theorem calculate_content_hash_deterministic (t t' : String) (u u' : Option String)
    (hcat : t ++ u.getD "" = t' ++ u'.getD "") :
    calculate_content_hash t u = calculate_content_hash t' u' := by
  unfold calculate_content_hash
  exact congrArg sha256hex hcat

/-- C1 (witness): the amended determinism theorem applied at the
concrete colliding pair. -/
theorem calculate_content_hash_deterministic_witness :
    "ab" ++ (none : Option String).getD "" = "a" ++ (some "b").getD "" ∧
    calculate_content_hash "ab" none = calculate_content_hash "a" (some "b") :=
  ⟨by decide, calculate_content_hash_deterministic "ab" "a" none (some "b") (by decide)⟩

/-- A concrete fresh candidate used by several concrete instantiations. -/
def cPost1 : SourcePost :=
  { title := "A", content := "first news item", url := some "https://a.example/1",
    source_type := "rss", source_name := "feedA", published_at := 100,
    media_url := none }

/-- A second concrete candidate with a different body and locator. -/
def cPost2 : SourcePost :=
  { title := "B", content := "second news item", url := some "https://b.example/2",
    source_type := "rss", source_name := "feedB", published_at := 90,
    media_url := none }

/-! ## C3 — publish failure leaves the store untouched -/

/-- C3: if the publish collaborator fails (returns `None`), the tick
terminates with a publish-failed outcome and no database write: the
store is unchanged, the selected item's fingerprint is still absent, and
the identical next tick sees the identical unique candidate list (the
item remains eligible). -/
theorem publish_failure_leaves_store (db : DB) (posts : List SourcePost)
    (gemini : String → Option String) (image_path : Option String)
    (publish : String → Option String → Option Int) (now : Int)
    (p : SourcePost) (h : String) (rest : List (SourcePost × String))
    (hsel : uniquePosts db posts = (p, h) :: rest)
    (hfail : ∀ t i, publish t i = none) :
    (run_workflow db posts gemini image_path publish now).1 = db ∧
    (run_workflow db posts gemini image_path publish now).2
      = TickOutcome.publishFailed (process_post_rewritten gemini p.content p.title) ∧
    is_duplicate db h = false ∧
    uniquePosts (run_workflow db posts gemini image_path publish now).1 posts
      = (p, h) :: rest := by
  have hred := run_workflow_selected db posts gemini image_path publish now p h rest hsel
  rw [hfail] at hred
  have hdupf : is_duplicate db h = false :=
    (mem_uniquePosts db posts (p, h) (hsel ▸ List.mem_cons_self _ _)).1
  rw [hred]
  exact ⟨rfl, rfl, hdupf, hsel⟩

/-- C3 (witness): with one fresh candidate and a failing publish
service, the store after the tick is still empty and the candidate's
fingerprint is still unrecorded. -/
theorem publish_failure_leaves_store_witness :
    (run_workflow DB.empty [cPost1] (fun _ => none) none (fun _ _ => none) 0).1
      = DB.empty ∧
    is_duplicate DB.empty
      (calculate_content_hash cPost1.content cPost1.url) = false := by
  have h := publish_failure_leaves_store DB.empty [cPost1] (fun _ => none) none
    (fun _ _ => none) 0 cPost1 (calculate_content_hash cPost1.content cPost1.url) []
    rfl (fun _ _ => rfl)
  exact ⟨h.1, h.2.2.1⟩

/-! ## C4 — rerun after recording -/

set_option maxRecDepth 100000 in
/-- C4 (counterexample): two fresh candidates with distinct fingerprints,
a successful tick records only the selected (first) one; re-running the
identical tick input still finds one eligible candidate, not zero. -/
theorem rerun_after_record_not_zero_eligible :
    (uniquePosts
        (run_workflow DB.empty [cPost1, cPost2] (fun _ => none) none
          (fun _ _ => some 1) 0).1
        [cPost1, cPost2]).length ≠ 0 := by
  decide

/-- C4 (amended): after a tick reaches RECORDING, re-running the
identical tick input yields exactly the previously eligible candidates
whose fingerprint differs from the recorded one — the published item is
no longer eligible, and the eligible count drops to zero exactly when
all previously eligible candidates shared the selected fingerprint
(e.g. when there was a single eligible candidate). -/
theorem rerun_eligible_after_record (db : DB) (posts : List SourcePost)
    (gemini : String → Option String) (image_path : Option String)
    (publish : String → Option String → Option Int) (now : Int) (mid : Int)
    (p : SourcePost) (h : String) (rest : List (SourcePost × String))
    (hsel : uniquePosts db posts = (p, h) :: rest)
    (hpub : publish (process_post_rewritten gemini p.content p.title) image_path
      = some mid)
    (hmid : mid ≠ 0) :
    uniquePosts (run_workflow db posts gemini image_path publish now).1 posts
      = rest.filter (fun q => !(h == q.2)) ∧
    ∀ q ∈ uniquePosts (run_workflow db posts gemini image_path publish now).1 posts,
      q.2 ≠ h := by
  have hred := run_workflow_selected db posts gemini image_path publish now p h rest hsel
  rw [hpub] at hred
  simp only [hmid, ne_eq, not_false_eq_true, if_true] at hred
  have hdupf : is_duplicate db h = false :=
    (mem_uniquePosts db posts (p, h) (hsel ▸ List.mem_cons_self _ _)).1
  have hadd : (add_published_post db h p.url p.source_type (some p.title)
      (some mid) now).1
      = { rows := db.rows ++
            [{ id := db.next_id, content_hash := h, source_url := p.url,
               source_type := p.source_type, title := some p.title,
               published_at := now, telegram_message_id := some mid,
               reactions_count := 0 }],
          next_id := db.next_id + 1 } := by
    simp [add_published_post, hdupf]
  have hmain : uniquePosts (run_workflow db posts gemini image_path publish now).1 posts
      = rest.filter (fun q => !(h == q.2)) := by
    rw [hred]
    simp only
    rw [hadd, uniquePosts_append_row, hsel]
    simp
  refine ⟨hmain, ?_⟩
  intro q hq
  rw [hmain] at hq
  have := (List.mem_filter.mp hq).2
  simp only [Bool.not_eq_true', beq_eq_false_iff_ne, ne_eq] at this
  exact fun hqe => this hqe.symm

/-- C4 (witness): the amended theorem applied to a single fresh
candidate — after its tick records it, re-running the identical input
yields zero eligible candidates. -/
theorem rerun_eligible_after_record_witness :
    uniquePosts
        (run_workflow DB.empty [cPost1] (fun _ => none) none
          (fun _ _ => some 1) 0).1
        [cPost1]
      = [] := by
  have h := rerun_eligible_after_record DB.empty [cPost1] (fun _ => none) none
    (fun _ _ => some 1) 0 1 cPost1
    (calculate_content_hash cPost1.content cPost1.url) [] rfl rfl (by decide)
  simpa using h.1

/-! ## C8 — rewrite fallback -/

/-- C8: if the rewrite collaborator raises or returns an empty result,
the pipeline's processed text is exactly the original unmodified text
(title and body joined by a blank line), and the workflow still hands
that text to the publish step. -/
theorem rewrite_failure_falls_back (db : DB) (posts : List SourcePost)
    (gemini : String → Option String) (image_path : Option String)
    (publish : String → Option String → Option Int) (now : Int)
    (p : SourcePost) (h : String) (rest : List (SourcePost × String))
    (hsel : uniquePosts db posts = (p, h) :: rest)
    (hfail : gemini (full_text_of p.title p.content) = none ∨
             gemini (full_text_of p.title p.content) = some "") :
    process_post_rewritten gemini p.content p.title
      = full_text_of p.title p.content ∧
    (run_workflow db posts gemini image_path publish now).2.textSent
      = some (full_text_of p.title p.content) := by
  have hrw : process_post_rewritten gemini p.content p.title
      = full_text_of p.title p.content := by
    unfold process_post_rewritten rewrite_text
    rcases hfail with hf | hf <;> simp [hf]
  have hred := run_workflow_selected db posts gemini image_path publish now p h rest hsel
  refine ⟨hrw, ?_⟩
  rw [hred]
  cases hpub : publish (process_post_rewritten gemini p.content p.title) image_path with
  | none => simp [TickOutcome.textSent, hrw]
  | some mid =>
      by_cases hmid : mid ≠ 0 <;> simp [hmid, TickOutcome.textSent, hrw]

/-- C8 (witness): the fallback theorem applied to a failing rewrite
service on a concrete candidate. -/
theorem rewrite_failure_falls_back_witness :
    process_post_rewritten (fun _ => none) cPost1.content cPost1.title
      = full_text_of cPost1.title cPost1.content ∧
    (run_workflow DB.empty [cPost1] (fun _ => none) none
        (fun _ _ => none) 0).2.textSent
      = some (full_text_of cPost1.title cPost1.content) :=
  rewrite_failure_falls_back DB.empty [cPost1] (fun _ => none) none
    (fun _ _ => none) 0 cPost1 (calculate_content_hash cPost1.content cPost1.url) []
    rfl (Or.inl rfl)

/-! ## C2 — idempotent insert -/

/-- C2: `add_published_post` is an idempotent insert.  Calling it twice
with the same fingerprint (other arguments arbitrary) returns the same
record id both times, the second call leaves the table unchanged, and
after the first call the table holds `max(previous count, 1)` rows for
that fingerprint — so no second row is ever created for it. -/
theorem record_idempotent (db : DB) (ch : String) (u1 u2 : Option String)
    (s1 s2 : String) (t1 t2 : Option String) (m1 m2 : Option Int) (n1 n2 : Int) :
    (add_published_post (add_published_post db ch u1 s1 t1 m1 n1).1 ch u2 s2 t2 m2 n2).2
      = (add_published_post db ch u1 s1 t1 m1 n1).2 ∧
    (add_published_post (add_published_post db ch u1 s1 t1 m1 n1).1 ch u2 s2 t2 m2 n2).1
      = (add_published_post db ch u1 s1 t1 m1 n1).1 ∧
    ((add_published_post db ch u1 s1 t1 m1 n1).1.rows.filter
        (fun r => r.content_hash == ch)).length
      = max (db.rows.filter (fun r => r.content_hash == ch)).length 1 := by
  by_cases hdup : is_duplicate db ch
  · have hsome : (db.rows.find? (fun r => r.content_hash == ch)).isSome := by
      rw [List.find?_isSome]
      simpa [is_duplicate, List.any_eq_true] using hdup
    obtain ⟨r, hr⟩ := Option.isSome_iff_exists.mp hsome
    have hmem : r ∈ db.rows := List.mem_of_find?_eq_some hr
    have hpred : (r.content_hash == ch) = true :=
      List.find?_some (p := fun r : PostRow => r.content_hash == ch) hr
    have hfl : r ∈ db.rows.filter (fun r => r.content_hash == ch) :=
      List.mem_filter.mpr ⟨hmem, hpred⟩
    have hlen : 1 ≤ (db.rows.filter (fun r => r.content_hash == ch)).length :=
      List.length_pos.mpr (List.ne_nil_of_mem hfl)
    simp only [add_published_post, hdup, if_true, hr]
    refine ⟨trivial, trivial, ?_⟩
    exact (Nat.max_eq_left hlen).symm
  · have hnone : db.rows.find? (fun r => r.content_hash == ch) = none := by
      rw [List.find?_eq_none]
      intro x hx
      exact fun hpx =>
        hdup (by
          simp only [is_duplicate, List.any_eq_true]
          exact ⟨x, hx, hpx⟩)
    have hfilnil : db.rows.filter (fun r => r.content_hash == ch) = [] := by
      rw [List.filter_eq_nil_iff]
      intro x hx
      simpa using (List.find?_eq_none.mp hnone) x hx
    simp only [add_published_post, hdup, if_false, hnone]
    constructor
    · simp [is_duplicate, List.any_append, beq_self_eq_true, List.find?_append, hnone]
    constructor
    · simp [is_duplicate, List.any_append, beq_self_eq_true, List.find?_append, hnone]
    · simp [List.filter_append, hfilnil, beq_self_eq_true]

/-! ## C5 — aggregator ordering -/

/-- C5: `fetch_all_sources` returns a permutation of the concatenated
feed-then-channel results, sorted by published timestamp descending; the
sort is stable (for every timestamp, the items carrying it appear in
exactly their source-then-arrival order); and when no source yields
anything the result is the empty sequence, never an error. -/
theorem fetch_all_sorted_stable (rss tg : List SourcePost) :
    List.Perm (fetch_all_sources rss tg) (rss ++ tg) ∧
    (fetch_all_sources rss tg).Pairwise
      (fun a b => b.published_at ≤ a.published_at) ∧
    (∀ t : Int,
      (fetch_all_sources rss tg).filter (fun x => x.published_at == t)
        = (rss ++ tg).filter (fun x => x.published_at == t)) ∧
    fetch_all_sources [] [] = [] := by
  have htrans : ∀ a b c : SourcePost,
      decide (b.published_at ≤ a.published_at) →
      decide (c.published_at ≤ b.published_at) →
      decide (c.published_at ≤ a.published_at) := by
    intro a b c hab hbc
    simp only [decide_eq_true_eq] at hab hbc ⊢
    exact le_trans hbc hab
  have htotal : ∀ a b : SourcePost,
      decide (b.published_at ≤ a.published_at)
        || decide (a.published_at ≤ b.published_at) := by
    intro a b
    rcases le_total a.published_at b.published_at with hle | hle <;> simp [hle]
  refine ⟨List.mergeSort_perm _ _, ?_, ?_, by simp [fetch_all_sources]⟩
  · exact (List.sorted_mergeSort htrans htotal (rss ++ tg)).imp
      (fun hab => of_decide_eq_true hab)
  · intro t
    have hperm : List.Perm (fetch_all_sources rss tg) (rss ++ tg) := List.mergeSort_perm _ _
    have hpw : ((rss ++ tg).filter (fun x => x.published_at == t)).Pairwise
        (fun a b => decide (b.published_at ≤ a.published_at) = true) := by
      apply List.pairwise_of_forall_mem_list
      intro a ha b hb
      have ha' : a.published_at = t := by
        simpa using (List.mem_filter.mp ha).2
      have hb' : b.published_at = t := by
        simpa using (List.mem_filter.mp hb).2
      simp [ha', hb']
    have hsub : List.Sublist ((rss ++ tg).filter (fun x => x.published_at == t))
        (fetch_all_sources rss tg) :=
      List.sublist_mergeSort htrans htotal hpw (List.filter_sublist _)
    have hsub2 : List.Sublist ((rss ++ tg).filter (fun x => x.published_at == t))
        ((fetch_all_sources rss tg).filter (fun x => x.published_at == t)) := by
      have := hsub.filter (fun x => x.published_at == t)
      rwa [List.filter_filter, List.filter_congr (fun a _ => Bool.and_self _)] at this
    have hlen : ((fetch_all_sources rss tg).filter
        (fun x => x.published_at == t)).length
        = ((rss ++ tg).filter (fun x => x.published_at == t)).length :=
      (hperm.filter _).length_eq
    exact (hsub2.eq_of_length hlen.symm).symm

/-! ## C6 — per-feed failure isolation -/

/-- The accumulating feed loop of `fetch_rss_news` is the concatenation
of the per-feed contributions. -/
theorem foldl_append_contrib {α β : Type} (c : β → List α) :
    ∀ (feeds : List β) (acc : List α),
      feeds.foldl (fun ps f => ps ++ c f) acc = acc ++ feeds.flatMap c
  | [], acc => by simp
  | f :: fs, acc => by
      simp only [List.foldl_cons, List.flatMap_cons]
      rw [foldl_append_contrib c fs (acc ++ c f), List.append_assoc]

/-- A feed whose fetch raised or whose parse came back bozo is skipped
by the `continue` branches of the feed loop. -/
def feedSkipped : FeedFetchResult → Bool
  | .fetchError => true
  | .parsed bozo _ _ => bozo

/-- C6: a feed that raises (or parses as bozo) contributes nothing and
never prevents the other feeds' items from appearing: fetching with the
failing feed in the middle equals fetching the two healthy halves and
concatenating. -/
theorem feed_failure_isolated (a b : List FeedFetchResult) (bad : FeedFetchResult)
    (max_posts : Nat) (now : Int) (hbad : feedSkipped bad = true) :
    fetch_rss_news (a ++ bad :: b) max_posts now
      = fetch_rss_news a max_posts now ++ fetch_rss_news b max_posts now := by
  have hcontrib : feedContribution max_posts now bad = [] := by
    cases bad with
    | fetchError => rfl
    | parsed bozo ft es =>
        cases bozo with
        | true => rfl
        | false => simp [feedSkipped] at hbad
  unfold fetch_rss_news
  rw [foldl_append_contrib, foldl_append_contrib, foldl_append_contrib]
  simp [List.flatMap_append, hcontrib]

/-- An RSS entry one hour old (times in seconds relative to `now = 0`). -/
def entryT1 : RssEntry :=
  { title := some "a1", summary := some "sa1", description := none,
    link := some "https://a.example/1", published_parsed := some (-3600) }

/-- An RSS entry three hours old. -/
def entryT3 : RssEntry :=
  { title := some "a3", summary := some "sa3", description := none,
    link := some "https://a.example/3", published_parsed := some (-10800) }

/-- An RSS entry two hours old, served by the second feed. -/
def entryT2 : RssEntry :=
  { title := some "b2", summary := some "sb2", description := none,
    link := some "https://b.example/2", published_parsed := some (-7200) }

/-- C6 (witness): feed A yields its two items, a feed between A and B
raises, feed B yields its item — the aggregated RSS result is exactly
feed A's items followed by feed B's. -/
theorem feed_failure_isolated_witness :
    fetch_rss_news
        [FeedFetchResult.parsed false (some "Feed A") [entryT1, entryT3],
         FeedFetchResult.fetchError,
         FeedFetchResult.parsed false (some "Feed B") [entryT2]] 10 0
      = fetch_rss_news [FeedFetchResult.parsed false (some "Feed A")
          [entryT1, entryT3]] 10 0
        ++ fetch_rss_news [FeedFetchResult.parsed false (some "Feed B")
            [entryT2]] 10 0 :=
  feed_failure_isolated
    [FeedFetchResult.parsed false (some "Feed A") [entryT1, entryT3]]
    [FeedFetchResult.parsed false (some "Feed B") [entryT2]]
    FeedFetchResult.fetchError 10 0 rfl

/-! ## C9 — scheduler cadence and single flight -/

/-- Every executed firing starts exactly at its own scheduled slot
`index * interval` — an execution is never delayed or queued. -/
theorem runFirings_time (interval : ℚ) (ds : List ℚ) :
    ∀ (k : Nat) (b : ℚ) (f : Firing),
      f ∈ runFirings interval ds k b → f.time = (f.index : ℚ) * interval := by
  induction ds with
  | nil =>
      intro k b f hf
      simp [runFirings] at hf
  | cons d ds ih =>
      intro k b f hf
      simp only [runFirings] at hf
      by_cases hb : b ≤ (k : ℚ) * interval
      · rw [if_pos hb] at hf
        rcases List.mem_cons.mp hf with h1 | h2
        · subst h1; rfl
        · exact ih _ _ _ h2
      · rw [if_neg hb] at hf
        exact ih _ _ _ hf

/-- No execution starts before the busy horizon it was launched
under. -/
theorem runFirings_ge (interval : ℚ) (ds : List ℚ) (hds : ∀ d ∈ ds, 0 ≤ d) :
    ∀ (k : Nat) (b : ℚ) (f : Firing),
      f ∈ runFirings interval ds k b → b ≤ f.time := by
  induction ds with
  | nil =>
      intro k b f hf
      simp [runFirings] at hf
  | cons d ds ih =>
      intro k b f hf
      have hd0 : (0 : ℚ) ≤ d := hds d (List.mem_cons_self _ _)
      have hds' : ∀ x ∈ ds, (0 : ℚ) ≤ x := fun x hx => hds x (List.mem_cons_of_mem _ hx)
      simp only [runFirings] at hf
      by_cases hb : b ≤ (k : ℚ) * interval
      · rw [if_pos hb] at hf
        rcases List.mem_cons.mp hf with h1 | h2
        · subst h1; exact hb
        · have := ih hds' _ _ _ h2
          calc b ≤ (k : ℚ) * interval := hb
            _ ≤ (k : ℚ) * interval + d := by linarith
            _ ≤ f.time := this
      · rw [if_neg hb] at hf
        exact ih hds' _ _ _ hf

/-- Single flight: consecutive executions never overlap — each one
starts no earlier than the previous one finished. -/
theorem runFirings_chain (interval : ℚ) (ds : List ℚ) (hds : ∀ d ∈ ds, 0 ≤ d) :
    ∀ (k : Nat) (b : ℚ),
      List.Chain' (fun f g => f.finish ≤ g.time) (runFirings interval ds k b) := by
  induction ds with
  | nil =>
      intro k b
      simp [runFirings]
  | cons d ds ih =>
      intro k b
      have hds' : ∀ x ∈ ds, (0 : ℚ) ≤ x := fun x hx => hds x (List.mem_cons_of_mem _ hx)
      simp only [runFirings]
      by_cases hb : b ≤ (k : ℚ) * interval
      · rw [if_pos hb]
        rw [List.chain'_cons']
        refine ⟨?_, ih hds' _ _⟩
        intro g hg
        exact runFirings_ge interval ds hds' _ _ g (List.mem_of_mem_head? hg)
      · rw [if_neg hb]
        exact ih hds' _ _

/-- A firing slot strictly before the first executed firing was due
while the scheduler was still busy. -/
theorem runFirings_skipped (interval : ℚ) (ds : List ℚ) :
    ∀ (k : Nat) (b : ℚ) (f : Firing),
      (runFirings interval ds k b).head? = some f →
      ∀ j : ℕ, k ≤ j → j < f.index → (j : ℚ) * interval < b := by
  induction ds with
  | nil =>
      intro k b f hf
      simp [runFirings] at hf
  | cons d ds ih =>
      intro k b f hf j hkj hjf
      simp only [runFirings] at hf
      by_cases hb : b ≤ (k : ℚ) * interval
      · rw [if_pos hb] at hf
        rw [List.head?_cons] at hf
        injection hf with hf
        subst hf
        exact absurd (show j < k from hjf) (by omega)
      · rw [if_neg hb] at hf
        rcases Nat.eq_or_lt_of_le hkj with heq | hlt
        · subst heq
          exact lt_of_not_le hb
        · exact ih _ _ f hf j hlt hjf

/-- Skipped-not-queued: a firing slot lying strictly between two
consecutive executed firings became due strictly before the earlier
execution finished — it was skipped because a tick was in flight and it
never runs later. -/
theorem runFirings_between (interval : ℚ) (ds : List ℚ) :
    ∀ (k : Nat) (b : ℚ),
      List.Chain' (fun f g => ∀ j : ℕ, f.index < j → j < g.index →
        (j : ℚ) * interval < f.finish) (runFirings interval ds k b) := by
  induction ds with
  | nil =>
      intro k b
      simp [runFirings]
  | cons d ds ih =>
      intro k b
      simp only [runFirings]
      by_cases hb : b ≤ (k : ℚ) * interval
      · rw [if_pos hb]
        rw [List.chain'_cons']
        refine ⟨?_, ih _ _⟩
        intro g hg j hj1 hj2
        have hkj : k < j := hj1
        exact runFirings_skipped interval ds _ _ g (Option.mem_def.mp hg) j
          (by omega) hj2
      · rw [if_neg hb]
        exact ih _ _

/-- C9: modelled after the interval job of `BotScheduler.start`
(`IntervalTrigger(hours=24 / posts_per_day)` with `max_instances=1`):
three posts per day give a fixed 8-hour interval; every executed firing
starts exactly at its own slot `k * interval` (never delayed or
queued); consecutive executions never overlap (at most one in flight);
and every skipped slot between two executions was due strictly before
the earlier execution finished — skipped because the previous tick was
still running. -/
theorem scheduler_fixed_interval_single_flight (ds : List ℚ)
    (hds : ∀ d ∈ ds, 0 ≤ d) :
    hours_interval 3 = 8 ∧
    (∀ f ∈ scheduleRun (hours_interval 3) ds,
      f.time = (f.index : ℚ) * hours_interval 3) ∧
    List.Chain' (fun f g => f.finish ≤ g.time) (scheduleRun (hours_interval 3) ds) ∧
    List.Chain' (fun f g => ∀ j : ℕ, f.index < j → j < g.index →
      (j : ℚ) * hours_interval 3 < f.finish) (scheduleRun (hours_interval 3) ds) := by
  refine ⟨by norm_num [hours_interval], ?_, ?_, ?_⟩
  · intro f hf
    exact runFirings_time _ _ _ _ _ hf
  · exact runFirings_chain _ _ hds _ _
  · exact runFirings_between _ _ _ _

/-- C9 (witness): the cadence theorem applied to a run whose first tick
takes 9 hours (so the 16-hour slot is due mid-run) followed by a
1-hour tick. -/
theorem scheduler_fixed_interval_single_flight_witness :
    hours_interval 3 = 8 ∧
    List.Chain' (fun f g => f.finish ≤ g.time)
      (scheduleRun (hours_interval 3) [9, 1]) := by
  have h := scheduler_fixed_interval_single_flight [9, 1] (by
    intro d hd
    rcases List.mem_cons.mp hd with h1 | h1
    · rw [h1]; norm_num
    · rw [List.mem_singleton.mp h1]; norm_num)
  exact ⟨h.1, h.2.2.1⟩

/-! ## C10 — missing publish dates become the current time -/

/-- A duplicate-free store accepts every candidate: with the empty
store the unique list is the whole candidate list paired with its
hashes. -/
theorem uniquePosts_empty (posts : List SourcePost) :
    uniquePosts DB.empty posts
      = posts.map (fun p => (p, calculate_content_hash p.content p.url)) := by
  induction posts with
  | nil => rfl
  | cons q qs ih =>
      simp only [uniquePosts, List.filterMap_cons] at ih ⊢
      simpa [is_duplicate, DB.empty] using ih

/-- Descending comparison on publish timestamps is transitive (helper
for reasoning about the aggregator's sort). -/
theorem postDesc_trans : ∀ a b c : SourcePost,
    decide (b.published_at ≤ a.published_at) →
    decide (c.published_at ≤ b.published_at) →
    decide (c.published_at ≤ a.published_at) := by
  intro a b c hab hbc
  simp only [decide_eq_true_eq] at hab hbc ⊢
  exact le_trans hbc hab

/-- Descending comparison on publish timestamps is total. -/
theorem postDesc_total : ∀ a b : SourcePost,
    decide (b.published_at ≤ a.published_at)
      || decide (a.published_at ≤ b.published_at) := by
  intro a b
  rcases le_total a.published_at b.published_at with hle | hle <;> simp [hle]

/-- C10: an RSS entry without a parseable publish date yields a post
whose timestamp is the current wall-clock time, so in the aggregated
recency ordering it sorts ahead of every strictly older dated item and
becomes the selected (first unique) candidate over all of them. -/
theorem undated_entry_sorts_first (e : RssEntry) (ft : Option String)
    (max_posts : Nat) (now : Int) (qs : List SourcePost)
    (hparse : e.published_parsed = none) (hmax : max_posts ≠ 0)
    (hq : ∀ q ∈ qs, q.published_at < now) :
    fetch_rss_news [FeedFetchResult.parsed false ft [e]] max_posts now
      = [entryToPost (ft.getD "Unknown Feed") now e] ∧
    (entryToPost (ft.getD "Unknown Feed") now e).published_at = now ∧
    (fetch_all_sources
        (fetch_rss_news [FeedFetchResult.parsed false ft [e]] max_posts now)
        qs).head?
      = some (entryToPost (ft.getD "Unknown Feed") now e) ∧
    (uniquePosts DB.empty
        (fetch_all_sources
          (fetch_rss_news [FeedFetchResult.parsed false ft [e]] max_posts now)
          qs)).head?
      = some (entryToPost (ft.getD "Unknown Feed") now e,
          calculate_content_hash
            (entryToPost (ft.getD "Unknown Feed") now e).content
            (entryToPost (ft.getD "Unknown Feed") now e).url) := by
  have hfetch : fetch_rss_news [FeedFetchResult.parsed false ft [e]] max_posts now
      = [entryToPost (ft.getD "Unknown Feed") now e] := by
    cases max_posts with
    | zero => exact absurd rfl hmax
    | succ n => simp [fetch_rss_news, feedContribution, List.take_succ_cons]
  have hnow : (entryToPost (ft.getD "Unknown Feed") now e).published_at = now := by
    simp [entryToPost, mkSourcePost, hparse]
  have hhead : (fetch_all_sources
      (fetch_rss_news [FeedFetchResult.parsed false ft [e]] max_posts now) qs).head?
      = some (entryToPost (ft.getD "Unknown Feed") now e) := by
    rw [hfetch]
    set p := entryToPost (ft.getD "Unknown Feed") now e with hp
    have hperm : List.Perm (fetch_all_sources [p] qs) (p :: qs) :=
      List.mergeSort_perm _ _
    have hsorted : (fetch_all_sources [p] qs).Pairwise
        (fun a b => decide (b.published_at ≤ a.published_at) = true) :=
      List.sorted_mergeSort postDesc_trans postDesc_total _
    cases houtput : fetch_all_sources [p] qs with
    | nil =>
        exfalso
        have := hperm.length_eq
        rw [houtput] at this
        simp at this
    | cons o os =>
        rw [houtput] at hperm hsorted
        by_cases hop : o = p
        · rw [List.head?_cons, hop]
        · exfalso
          have homem : o ∈ p :: qs := hperm.mem_iff.mp (List.mem_cons_self _ _)
          have hoq : o ∈ qs := by
            rcases List.mem_cons.mp homem with h1 | h1
            · exact absurd h1 hop
            · exact h1
          have hpo : p ∈ o :: os := hperm.mem_iff.mpr (List.mem_cons_self _ _)
          have hpos : p ∈ os := by
            rcases List.mem_cons.mp hpo with h1 | h1
            · exact absurd h1.symm hop
            · exact h1
          have hrel := (List.pairwise_cons.mp hsorted).1 p hpos
          have : p.published_at ≤ o.published_at := of_decide_eq_true hrel
          have : o.published_at < now := hq o hoq
          rw [hnow] at hrel
          have := of_decide_eq_true hrel
          omega
  refine ⟨hfetch, hnow, hhead, ?_⟩
  rw [uniquePosts_empty, List.head?_map, hhead]
  rfl

/-- A dated item one hour older than the tick's wall clock. -/
def datedOld : SourcePost :=
  { title := "old", content := "dated old item", url := some "https://old.example/1",
    source_type := "telegram", source_name := "chan", published_at := -3600,
    media_url := none }

/-- An RSS entry whose publish date failed to parse. -/
def entryNoDate : RssEntry :=
  { title := some "undated", summary := some "no date entry", description := none,
    link := some "https://a.example/x", published_parsed := none }

/-- C10 (witness): the undated-entry theorem applied to a concrete
undated entry against a concrete strictly older dated item. -/
theorem undated_entry_sorts_first_witness :
    (entryToPost "Feed A" 0 entryNoDate).published_at = 0 ∧
    (fetch_all_sources
        (fetch_rss_news [FeedFetchResult.parsed false (some "Feed A") [entryNoDate]]
          10 0) [datedOld]).head?
      = some (entryToPost "Feed A" 0 entryNoDate) := by
  have h := undated_entry_sorts_first entryNoDate (some "Feed A") 10 0 [datedOld]
    rfl (by decide) (by
      intro q hq
      rw [List.mem_singleton.mp hq]
      decide)
  exact ⟨h.2.1, h.2.2.1⟩

/-! ## C7 — purge -/

def staleRow : PostRow :=
  { id := 1, content_hash := "h1", source_url := none, source_type := "rss",
    title := none, published_at := 0, telegram_message_id := none,
    reactions_count := 0 }

/-- C7 (counterexample): at a store holding one record 100 days old,
`cleanup_old_posts 90` deletes exactly that record (rowcount 1) but the
operation returns no value at all (`None`, Python function without a
`return` statement) — not the count of records deleted. -/
theorem cleanup_returns_no_count :
    (cleanup_old_posts { rows := [staleRow], next_id := 2 } 90 (100 * 86400)).2.1 = 1 ∧
    (cleanup_old_posts { rows := [staleRow], next_id := 2 } 90 (100 * 86400)).2.2 = none ∧
    (cleanup_old_posts { rows := [staleRow], next_id := 2 } 90 (100 * 86400)).2.2 ≠
      some (cleanup_old_posts { rows := [staleRow], next_id := 2 } 90 (100 * 86400)).2.1 := by
  refine ⟨by decide, by decide, by decide⟩

/-- C7 (amended): `cleanup_old_posts` deletes exactly the records whose
publish timestamp is strictly older than the retention cutoff, leaves
records at or after the cutoff unchanged (in order), computes the exact
count of records deleted (which it only logs), and returns no value. -/
theorem cleanup_deletes_exactly_old (db : DB) (days now : Int) :
    (cleanup_old_posts db days now).1.rows
      = db.rows.filter (fun r => decide (now - days * secondsPerDay ≤ r.published_at)) ∧
    (cleanup_old_posts db days now).1.next_id = db.next_id ∧
    (cleanup_old_posts db days now).2.1
      = (db.rows.filter (fun r => decide (r.published_at < now - days * secondsPerDay))).length ∧
    (cleanup_old_posts db days now).2.2 = none := by
  refine ⟨?_, rfl, ?_, rfl⟩
  · simp only [cleanup_old_posts]
    refine List.filter_congr (fun r _ => ?_)
    by_cases h : r.published_at < now - days * secondsPerDay
    · simp [h, not_le.mpr h]
    · simp [h, not_lt.mp h]
  · simp only [cleanup_old_posts]
    have h := List.length_eq_length_filter_add
      (l := db.rows) (fun r => decide (r.published_at < now - days * secondsPerDay))
    have he : db.rows.filter (fun r => !(r.published_at < now - days * secondsPerDay))
        = db.rows.filter (fun r => !(decide (r.published_at < now - days * secondsPerDay))) := by
      simp
    rw [he]
    omega

end NewsBot
